import Mathlib

/-!
MailMind RAG engine — shallow embedding and verification.

This file embeds the core of `app/rag.py` (the `RAGEngine` class: ingestion,
retrieval, and the style profiler) into Lean 4 and proves the specified
properties about it.

Modelling conventions:
* Python dict-based email records are embedded as `EmailDyn`, whose fields are
  optional dynamic values (`PyVal`), so that malformed records (missing fields,
  non-string values) can be represented.  `Email` is the well-typed record of
  the data model (all fields strings); `Email.toDyn` injects it.
* Python string slicing `s[:n]` on a `str` is `pyTake` (the first `n` code
  points); applying it to a non-string raises `TypeError`, which we model
  with `Except String`.
* The Chroma collection is embedded as an association list keyed by id with
  upsert (insert-or-replace) semantics; `collection.query` is an oracle
  parameter returning ranked (metadata, distance) results or an error.
* Float distances are embedded as rationals; `round(x, 3)` is round-half-even
  to 3 decimal places on rationals.
-/

/-- Dynamic (Python-like) values that may appear in a raw email record. -/
inductive PyVal where
  | vstr (s : String)
  | vint (n : Int)
  | vnone
deriving DecidableEq, Repr

/-- `str(v)` — total in Python. -/
def pyStr : PyVal → String
  | .vstr s => s
  | .vint n => toString n
  | .vnone => "None"

/-- `s[:n]` on a string: the first `n` code points. -/
def pyTake (s : String) (n : Nat) : String := String.mk (s.data.take n)

/-- `v[:n]` — string slicing; raises `TypeError` on a non-string value. -/
def pySlice (v : PyVal) (n : Nat) : Except String String :=
  match v with
  | .vstr s => .ok (pyTake s n)
  | _ => .error "TypeError: value is not subscriptable"

/-- Python truthiness of a value (`if v:`). -/
def pyTruthy : PyVal → Bool
  | .vstr s => s ≠ ""
  | .vint n => n ≠ 0
  | .vnone => false

/-- A raw email record: a dict whose relevant keys may be absent or hold
values of any type.  `email.get(k, d)` is `(field).getD d`. -/
structure EmailDyn where
  id : Option PyVal := none
  subject : Option PyVal := none
  body : Option PyVal := none
  received : Option PyVal := none
  fromAddr : Option PyVal := none
  toAddr : Option PyVal := none
deriving DecidableEq, Repr

/-- A well-typed email record, as described by the data model
(`id`, `subject`, `body`, `from`, `to`, `received`, all strings). -/
structure Email where
  id : String := ""
  subject : String := ""
  body : String := ""
  received : String := ""
  fromAddr : String := ""
  toAddr : String := ""
deriving DecidableEq, Repr

/-- Injection of a well-typed record into the dynamic representation. -/
def Email.toDyn (e : Email) : EmailDyn :=
  { id := some (.vstr e.id), subject := some (.vstr e.subject),
    body := some (.vstr e.body), received := some (.vstr e.received),
    fromAddr := some (.vstr e.fromAddr), toAddr := some (.vstr e.toAddr) }

/-- `settings.MAX_EMAIL_HISTORY` (config.py). -/
def MAX_EMAIL_HISTORY : Nat := 500

/-- `settings.MAX_RAG_RESULTS` (config.py). -/
def MAX_RAG_RESULTS : Nat := 5

/-- The metadata payload stored alongside each indexed document
(rag.py, `ingest`). The raw `subject` value is stored unconverted. -/
structure MetaData where
  id : String
  subject : PyVal
  reply : String
  received : String
  fromAddr : String
  toAddr : String
deriving DecidableEq, Repr

/-- One kept record of an ingestion call: the embeddable document, its
metadata and its assigned collection id. -/
structure KeptRec where
  doc : String
  meta : MetaData
  id : String
deriving DecidableEq, Repr

/-- The per-record body of `ingest`'s loop: extract the fields (slicing
`body` to 800 and `received` to 400 characters, either of which raises on a
non-string value), skip the record if the truncated body is empty, otherwise
build the document, metadata and id.  `k` is `len(ids)`, the number of
records kept so far. -/
def processEmail (e : EmailDyn) (k : Nat) : Except String (Option KeptRec) :=
  let email_id := pyStr ((e.id).getD (.vstr ""))
  let subject := (e.subject).getD (.vstr "")
  match pySlice ((e.body).getD (.vstr "")) 800 with
  | .error err => .error err
  | .ok body =>
    match pySlice ((e.received).getD (.vstr "")) 400 with
    | .error err => .error err
    | .ok received =>
      if body = "" then .ok none
      else .ok (some
        { doc := "Subject: " ++ pyStr subject ++ "\n\nBody: " ++ body
          meta :=
            { id := email_id
              subject := subject
              reply := pyTake body 500
              received := pyTake received 400
              fromAddr := pyStr ((e.fromAddr).getD (.vstr ""))
              toAddr := pyStr ((e.toAddr).getD (.vstr "")) }
          id := if email_id ≠ "" then "email_" ++ email_id
                else "email_" ++ toString k })

/-- The accumulation loop of `ingest` over the (already capped) record list;
`acc` holds the kept records so far, in order. -/
def ingestLoop : List EmailDyn → List KeptRec → Except String (List KeptRec)
  | [], acc => .ok acc
  | e :: rest, acc =>
    match processEmail e acc.length with
    | .error err => .error err
    | .ok none => ingestLoop rest acc
    | .ok (some r) => ingestLoop rest (acc ++ [r])

/-- The vector store: an association list of (id, document, metadata),
in insertion order. -/
abbrev EmailStore := List (String × String × MetaData)

/-- Upsert of a single record: replace the record with the same id if one
exists, else append. -/
def upsertOne (st : EmailStore) (r : KeptRec) : EmailStore :=
  if st.any (fun p => p.1 = r.id) then
    st.map (fun p => if p.1 = r.id then (r.id, r.doc, r.meta) else p)
  else
    st ++ [(r.id, r.doc, r.meta)]

/-- `collection.upsert` on a batch: sequential single-record upserts. -/
def upsertBatch (st : EmailStore) (rs : List KeptRec) : EmailStore :=
  rs.foldl upsertOne st

/-- Auxiliary for `chunksOf`: structural recursion on a fuel bound (the
fuel is at least the list length at every call). -/
def chunksOfAux (n : Nat) : Nat → List α → List (List α)
  | _, [] => []
  | 0, _ :: _ => []
  | fuel + 1, a :: l =>
    if n = 0 then []
    else (a :: l).take n :: chunksOfAux n fuel ((a :: l).drop n)

/-- The sub-batches `l[i:i+n]` for `i in range(0, len(l), n)`. -/
def chunksOf (n : Nat) (l : List α) : List (List α) := chunksOfAux n l.length l

/-- `ingest` (rag.py:49-92): cap the batch at `MAX_EMAIL_HISTORY`, keep the
records with a non-empty truncated body, upsert them in sub-batches of 100
(skipping the upsert entirely when nothing was kept), and return the new
store together with the number of records indexed. -/
def ingest (st : EmailStore) (emails : List EmailDyn) :
    Except String (EmailStore × Nat) :=
  match ingestLoop (emails.take MAX_EMAIL_HISTORY) [] with
  | .error err => .error err
  | .ok kept =>
    let st' := if kept.isEmpty then st
               else (chunksOf 100 kept).foldl upsertBatch st
    .ok (st', kept.length)

/-- Specification-side description of the kept records: walk the capped
batch, keep each record with a non-empty truncated body, numbering kept
records from `k`. -/
def keptRecs : List Email → Nat → List KeptRec
  | [], _ => []
  | e :: rest, k =>
    if pyTake e.body 800 = "" then keptRecs rest k
    else
      { doc := "Subject: " ++ e.subject ++ "\n\nBody: " ++ pyTake e.body 800
        meta :=
          { id := e.id
            subject := .vstr e.subject
            reply := pyTake (pyTake e.body 800) 500
            received := pyTake (pyTake e.received 400) 400
            fromAddr := e.fromAddr
            toAddr := e.toAddr }
        id := if e.id ≠ "" then "email_" ++ e.id
              else "email_" ++ toString k } :: keptRecs rest (k + 1)

/-- A record field that is absent or holds a string — the shapes whose
slicing cannot raise. -/
def strOrMissing : Option PyVal → Bool
  | none => true
  | some (.vstr _) => true
  | some _ => false

/-- Whether `ingest` keeps a record: its body is a string that is non-empty
after truncation (a missing body defaults to the empty string). -/
def keepsBody (e : EmailDyn) : Bool :=
  match (e.body).getD (.vstr "") with
  | .vstr s => pyTake s 800 ≠ ""
  | _ => false

/-- The (single-query) result of `collection.query`: ranked metadata and
distances, ascending by distance. -/
structure QueryResult where
  metadatas : List MetaData
  distances : List ℚ
deriving DecidableEq, Repr

/-- One retrieved context snippet (rag.py:118-123). -/
structure RetrievedContext where
  received : String
  reply : String
  subject : PyVal
  similarity : ℚ
deriving DecidableEq, Repr

/-- Round to the nearest integer, ties to even (Python `round`). -/
def roundHalfEven (x : ℚ) : ℤ :=
  if x - ⌊x⌋ = 1/2 then (if 2 ∣ ⌊x⌋ then ⌊x⌋ else ⌊x⌋ + 1) else round x

/-- Python `round(x, 3)`. -/
def round3 (x : ℚ) : ℚ := (roundHalfEven (x * 1000) : ℚ) / 1000

/-- The context record built for a match kept by `retrieve`. -/
def mkContext (m : MetaData) (d : ℚ) : RetrievedContext :=
  { received := m.received, reply := m.reply, subject := m.subject,
    similarity := round3 (1 - d) }

/-- `retrieve` (rag.py:96-129).  `storeCount` embeds `self.count()` and `qf`
embeds `self.collection.query` (an oracle from query text and requested
result count to ranked results, or a backend error).  An empty store
short-circuits to `[]`; a backend error is caught and converted to `[]`;
otherwise each ranked match with distance strictly below 0.8 is shaped into
a context record, in rank order. -/
def retrieve (storeCount : Nat) (qf : String → Nat → Except String QueryResult)
    (query : String) (n_results : Nat) : List RetrievedContext :=
  if storeCount = 0 then []
  else
    match qf query (min n_results storeCount) with
    | .error _ => []
    | .ok res =>
      (res.metadatas.zip res.distances).filterMap (fun md =>
        if md.2 < mkRat 4 5 then some (mkContext md.1 md.2) else none)

/-- The alternation of closing phrases in `sign_off_patterns`
(rag.py:144-146), in order. -/
def signOffPhrases : List String :=
  ["Best regards", "Kind regards", "Thanks", "Thank you", "Cheers", "Regards",
   "Sincerely", "Talk soon", "Speak soon", "All the best"]

/-- The character class `[,\s]` closing the sign-off pattern. -/
def isSignOffEnd (c : Char) : Bool :=
  c = ',' || c = ' ' || c = '\t' || c = '\n' || c = '\x0d' || c = '\x0b' || c = '\x0c'

/-- Case-insensitive literal match of `p` against an initial segment of `t`;
returns the matched text (with the original casing of `t`) and the rest. -/
def matchCI : List Char → List Char → Option (List Char × List Char)
  | [], t => some ([], t)
  | _ :: _, [] => none
  | p :: ps, c :: cs =>
    if p.toLower = c.toLower then
      (matchCI ps cs).map (fun mr => (c :: mr.1, mr.2))
    else none

/-- Try the sign-off alternation at one position: the first phrase that
matches case-insensitively and is followed by a `[,\s]` character wins; the
captured group is the matched phrase text without that trailing character. -/
def signOffAt (t : List Char) : Option String :=
  signOffPhrases.findSome? (fun p =>
    match matchCI p.data t with
    | some (m, rest) =>
      match rest with
      | c :: _ => if isSignOffEnd c then some (String.mk m) else none
      | [] => none
    | none => none)

/-- Leftmost-match scan of `re.search` over the body's characters. -/
def searchSignOffAux : List Char → Option String
  | [] => none
  | c :: cs =>
    match signOffAt (c :: cs) with
    | some s => some s
    | none => searchSignOffAux cs

/-- `re.search(sign_off_pattern, body, re.IGNORECASE)`, returning the
captured phrase of the first match, if any (rag.py:147-151). -/
def searchSignOff (body : String) : Option String := searchSignOffAux body.data

/-- ASCII lowering of a string (Python `str.lower`). -/
def strToLower (s : String) : String := String.mk (s.data.map Char.toLower)

/-- `a` is an initial segment of `b`. -/
def startsWithChars : List Char → List Char → Bool
  | [], _ => true
  | _ :: _, [] => false
  | a :: as, b :: bs => a = b && startsWithChars as bs

/-- Substring containment (Python `needle in hay`). -/
def containsSub (needle : List Char) : List Char → Bool
  | [] => needle.isEmpty
  | c :: t => startsWithChars needle (c :: t) || containsSub needle t

/-- `w.lower() in b.lower()`. -/
def occursIn (w b : String) : Bool :=
  containsSub (strToLower w).data (strToLower b).data

/-- The fixed formal-word list (rag.py:157). -/
def formalWordList : List String := ["please", "kindly", "Dear", "hereby", "enclosed"]

/-- The fixed casual-word list (rag.py:158). -/
def casualWordList : List String := ["hey", "hi", "thanks!", "yeah", "sure", "cool"]

/-- `sum(1 for b in bodies for w in ws if w.lower() in b.lower())`. -/
def countHits (ws : List String) (bodies : List String) : Nat :=
  (bodies.map (fun b => (ws.filter (fun w => occursIn w b)).length)).sum

/-- Multiplicity of `a` in `l` (`Counter`'s count). -/
def countOcc (l : List String) (a : String) : Nat :=
  (l.filter (fun x => x = a)).length

/-- Auxiliary for `firstOccs`: structural recursion on a fuel bound (the
fuel is at least the list length at every call). -/
def firstOccsAux : Nat → List String → List String
  | _, [] => []
  | 0, _ :: _ => []
  | fuel + 1, a :: l => a :: firstOccsAux fuel (l.filter (fun x => x ≠ a))

/-- The distinct elements of `l` in first-occurrence order (the key order of
a `Counter` built from `l`). -/
def firstOccs (l : List String) : List String := firstOccsAux l.length l

/-- Insert `a` into a count-descending list, after all elements of count at
least `cnt a` (preserving first-occurrence order among ties). -/
def insertByCount (cnt : String → Nat) (a : String) : List String → List String
  | [] => [a]
  | b :: l => if cnt b < cnt a then a :: b :: l else b :: insertByCount cnt a l

/-- Stable sort of keys by descending count. -/
def sortByCountDesc (cnt : String → Nat) (keys : List String) : List String :=
  keys.foldl (fun acc k => insertByCount cnt k acc) []

/-- `Counter(l).most_common(...)`: (element, count) pairs in descending count
order, ties in first-insertion order. -/
def mostCommon (l : List String) : List (String × Nat) :=
  (sortByCountDesc (countOcc l) (firstOccs l)).map (fun k => (k, countOcc l k))

/-- Python whitespace (`str.split()` separators), ASCII range. -/
def isPySpace (c : Char) : Bool :=
  c = ' ' || c = '\t' || c = '\n' || c = '\x0d' || c = '\x0b' || c = '\x0c'

/-- `len(s.split())`: the number of maximal non-whitespace runs. -/
def pyWordCount (s : String) : Nat :=
  ((s.split isPySpace).filter (fun w => w ≠ "")).length

/-- A word character of the lowered text (`\w`, ASCII range). -/
def isWordChar (c : Char) : Bool := c.isAlphanum || c = '_'

/-- A lowercase ASCII letter (`[a-z]`). -/
def isLowerAlpha (c : Char) : Bool := 'a' ≤ c && c ≤ 'z'

/-- Accumulator scan for `wordRuns`: `cur` is the current run, reversed. -/
def wordRunsGo : List Char → List Char → List (List Char)
  | [], cur => if cur.isEmpty then [] else [cur.reverse]
  | c :: cs, cur =>
    if isWordChar c then wordRunsGo cs (c :: cur)
    else if cur.isEmpty then wordRunsGo cs [] else cur.reverse :: wordRunsGo cs []

/-- The maximal word-character runs of a character list, in order. -/
def wordRuns (l : List Char) : List (List Char) := wordRunsGo l []

/-- `re.findall(r'\b[a-z]{3,}\b', text)` on lowered text: the maximal
word-character runs that consist entirely of letters and have length at
least 3. -/
def wordTokens (s : String) : List String :=
  ((wordRuns s.data).filter
      (fun r => r.all isLowerAlpha && decide (3 ≤ r.length))).map
    (fun r => String.mk r)

/-- The adjacent two-token phrases `words[i] ++ " " ++ words[i+1]`. -/
def bigramsOf (ws : List String) : List String :=
  (ws.zip ws.tail).map (fun p => p.1 ++ " " ++ p.2)

/-- The persisted style profile (rag.py:178-184). -/
structure StyleProfile where
  tone : String
  avg_length : String
  sign_off : String
  common_phrases : List String
  email_count : Nat
deriving DecidableEq, Repr

/-- The non-empty bodies of a batch (`[e.get("body","") for e in emails if
e.get("body")]`). -/
def bodiesOf (emails : List Email) : List String :=
  emails.filterMap (fun e => if e.body ≠ "" then some e.body else none)

/-- The tally of captured sign-off phrases, one per matching body. -/
def signOffTallies (bodies : List String) : List String :=
  bodies.filterMap searchSignOff

/-- Sign-off selection (rag.py:143-154): the head of
`Counter(sign_offs).most_common(1)`, defaulting to `"Best regards"`. -/
def signOffOf (bodies : List String) : String :=
  match (mostCommon (signOffTallies bodies)).take 1 with
  | [] => "Best regards"
  | (s, _) :: _ => s

/-- Tone detection (rag.py:156-159). -/
def toneOf (bodies : List String) : String :=
  if countHits formalWordList bodies > countHits casualWordList bodies
  then "formal" else "conversational"

/-- Length bucketing (rag.py:161-170). -/
def avgLengthOf (bodies : List String) : String :=
  let avg_words : ℚ := ((bodies.map pyWordCount).sum : ℚ) / (bodies.length : ℚ)
  if avg_words < 50 then "very short (1-2 sentences)"
  else if avg_words < 120 then "concise (3-5 sentences)"
  else if avg_words < 300 then "moderate (1-2 paragraphs)"
  else "detailed (multiple paragraphs)"

/-- Common-phrase extraction (rag.py:172-176). -/
def commonPhrasesOf (bodies : List String) : List String :=
  let all_words := strToLower (String.intercalate " " (bodies.take 50))
  let bigrams := bigramsOf (wordTokens all_words)
  ((((mostCommon bigrams).take 20).filter (fun p => 2 ≤ p.2)).map Prod.fst).take 8

/-- `build_style_profile`'s pure analysis (rag.py:133-184): `none` embeds the
empty dict returned when no body is non-empty. -/
def buildStyleProfile (emails : List Email) : Option StyleProfile :=
  let bodies := bodiesOf emails
  if bodies = [] then none
  else
    some { tone := toneOf bodies, avg_length := avgLengthOf bodies,
           sign_off := signOffOf bodies, common_phrases := commonPhrasesOf bodies,
           email_count := emails.length }

/-- `build_style_profile` with its persistence effect: `disk` embeds the
contents of `style_profile.json` (`none` = absent).  Returns the value
returned to the caller and the new disk contents; the empty-batch early
return does not write. -/
def build_style_profile (disk : Option StyleProfile) (emails : List Email) :
    Option StyleProfile × Option StyleProfile :=
  match buildStyleProfile emails with
  | none => (none, disk)
  | some p => (some p, some p)

/-- `get_style_profile` (rag.py:193-198): load the persisted artifact, or the
empty dict when none exists. -/
def get_style_profile (disk : Option StyleProfile) : Option StyleProfile :=
  disk

/-! Example inputs used by the witness and counterexample theorems. -/

/-- A stored metadata record used by the retrieval examples. -/
def exMeta (i : String) : MetaData :=
  { id := i, subject := .vstr ("s" ++ i), reply := "p" ++ i,
    received := "r" ++ i, fromAddr := "f", toAddr := "t" }

/-- A ranked backend result: one close match, one far match. -/
def exQueryRes : QueryResult :=
  { metadatas := [exMeta "1", exMeta "2"],
    distances := [mkRat 1 10, mkRat 9 10] }

/-- A backend oracle answering only a request for 2 results. -/
def exQueryFn : String → Nat → Except String QueryResult :=
  fun _ k => if k = 2 then .ok exQueryRes else .error "unexpected request size"

/-- A backend oracle that always fails. -/
def exFailFn : String → Nat → Except String QueryResult :=
  fun _ _ => .error "backend down"

/-- Two records whose assigned ids collide: the first has an empty source id
(and is numbered 0), the second has source id "0". -/
def exCollide : List Email := [{ body := "a" }, { id := "0", body := "b" }]

/-- The store produced by ingesting `exCollide` into an empty store: the
colliding id holds only the later record. -/
def exCollideStore : EmailStore :=
  [("email_0", "Subject: \n\nBody: b",
    { id := "0", subject := .vstr "", reply := "b", received := "",
      fromAddr := "", toAddr := "" })]

/-- Malformed-but-harmless records: one well-formed, one with no body key,
one with no keys at all. -/
def exC4emails : List EmailDyn :=
  [{ body := some (.vstr "hello") }, { subject := some (.vstr "s") }, {}]

/-- A batch whose bodies all contain a formal word and no casual word. -/
def exC6emails : List Email :=
  [{ body := "Please review the document" }, { body := "Please send an update" }]

/-- The profile built from `exC6emails`. -/
def exC6profile : StyleProfile :=
  { tone := "formal", avg_length := "very short (1-2 sentences)",
    sign_off := "Best regards", common_phrases := [], email_count := 2 }

/-- A batch containing "Best regards," five times and "Thanks," once. -/
def exC7emails : List Email :=
  [{ body := "Best regards,\nAlice" }, { body := "Best regards,\nAlice" },
   { body := "Best regards,\nAlice" }, { body := "Best regards,\nAlice" },
   { body := "Best regards,\nAlice" }, { body := "Thanks,\nBob" }]

/-- The profile built from `exC7emails`. -/
def exC7profile : StyleProfile :=
  { tone := "conversational", avg_length := "very short (1-2 sentences)",
    sign_off := "Best regards",
    common_phrases := ["best regards", "regards alice", "alice best"],
    email_count := 6 }

/-- A minimal batch with one non-empty body. -/
def exC8emails : List Email := [{ body := "x" }]

/-- A batch with an empty-body record, so that the raw length (3) exceeds
the number of analyzed bodies (2). -/
def exC10emails : List Email := [{ body := "x" }, { body := "" }, { body := "y z" }]

/-- The profile built from `exC10emails`. -/
def exC10profile : StyleProfile :=
  { tone := "conversational", avg_length := "very short (1-2 sentences)",
    sign_off := "Best regards", common_phrases := [], email_count := 3 }

/-! Lemmas about ingestion. -/

/-- Folding the upsert over the fuelled sub-batches equals one upsert of the
whole list, for any sufficient fuel. -/
theorem foldl_upsertBatch_chunksOfAux (n : Nat) (hn : n ≠ 0) :
    ∀ (fuel : Nat) (l : List KeptRec) (st : EmailStore), l.length ≤ fuel →
      (chunksOfAux n fuel l).foldl upsertBatch st = upsertBatch st l := by
  intro fuel
  induction fuel with
  | zero =>
    intro l st hl
    have hnil : l = [] := List.eq_nil_of_length_eq_zero (Nat.le_zero.mp hl)
    subst hnil
    simp [chunksOfAux, upsertBatch]
  | succ f ih =>
    intro l st hl
    cases l with
    | nil => simp [chunksOfAux, upsertBatch]
    | cons a t =>
      rw [chunksOfAux, if_neg hn, List.foldl_cons]
      rw [ih ((a :: t).drop n) (upsertBatch st ((a :: t).take n)) ?hlen]
      case hlen =>
        have hpos : 0 < n := Nat.pos_of_ne_zero hn
        simp only [List.length_drop, List.length_cons]
        simp only [List.length_cons] at hl
        omega
      show ((a :: t).drop n).foldl upsertOne (((a :: t).take n).foldl upsertOne st)
          = upsertBatch st (a :: t)
      rw [← List.foldl_append, List.take_append_drop]
      rfl

/-- Folding the upsert over the sub-batches equals one upsert of the whole
list. -/
theorem foldl_upsertBatch_chunksOf (n : Nat) (hn : n ≠ 0) (l : List KeptRec)
    (st : EmailStore) : (chunksOf n l).foldl upsertBatch st = upsertBatch st l :=
  foldl_upsertBatch_chunksOfAux n hn l.length l st le_rfl

/-- The loop of `ingest`, on well-typed records, keeps exactly the records
described by `keptRecs` and never fails. -/
theorem ingestLoop_toDyn (es : List Email) : ∀ (acc : List KeptRec),
    ingestLoop (es.map Email.toDyn) acc = .ok (acc ++ keptRecs es acc.length) := by
  induction es with
  | nil => intro acc; simp [ingestLoop, keptRecs]
  | cons e rest ih =>
    intro acc
    by_cases h : pyTake e.body 800 = "" <;>
      simp [ingestLoop, processEmail, Email.toDyn, pySlice, pyStr, keptRecs, h, ih,
        List.append_assoc]

/-- `keptRecs` keeps as many records as the body filter does. -/
theorem keptRecs_length (es : List Email) : ∀ k,
    (keptRecs es k).length
      = (es.filter (fun e => pyTake e.body 800 ≠ "")).length := by
  induction es with
  | nil => intro k; simp [keptRecs]
  | cons e rest ih =>
    intro k
    by_cases h : pyTake e.body 800 = "" <;> simp [keptRecs, List.filter_cons, h, ih]

/-- C9: ingestion's sub-batching is transparent — upserting the kept records
in consecutive sub-batches of size 100 yields the same final store contents
as upserting the entire list in a single call, for every store and list. -/
theorem ingest_batching_transparent (st : EmailStore) (rs : List KeptRec) :
    (chunksOf 100 rs).foldl upsertBatch st = upsertBatch st rs :=
  foldl_upsertBatch_chunksOf 100 (by decide) rs st

/-- C2: on a batch of email records, `ingest` indexes exactly the records of
the first `MAX_EMAIL_HISTORY` (500) whose body is non-empty after truncation,
and returns that kept count (not the input length). -/
theorem ingest_returns_kept_count (st : EmailStore) (emails : List Email) :
    ingest st (emails.map Email.toDyn)
      = .ok (upsertBatch st (keptRecs (emails.take MAX_EMAIL_HISTORY) 0),
             ((emails.take MAX_EMAIL_HISTORY).filter
                (fun e => pyTake e.body 800 ≠ "")).length) := by
  unfold ingest
  rw [← List.map_take, ingestLoop_toDyn]
  simp only [List.nil_append, List.length_nil]
  rw [foldl_upsertBatch_chunksOf 100 (by decide)]
  have hlen := keptRecs_length (emails.take MAX_EMAIL_HISTORY) 0
  by_cases h : keptRecs (emails.take MAX_EMAIL_HISTORY) 0 = []
  · rw [h] at hlen ⊢
    simp only [ne_eq, decide_not, List.length_nil] at hlen
    simp [upsertBatch, ← hlen]
  · simp [List.isEmpty_iff, h, hlen]

/-- The ids assigned to the kept records, positionally: the id of the k-th
kept record (counting from the numbering base) is `"email_" ++ source_id`
when the source id is non-empty, else `"email_" ++ k`. -/
theorem keptRecs_ids (es : List Email) : ∀ k,
    (keptRecs es k).map KeptRec.id
      = ((es.filter (fun e => pyTake e.body 800 ≠ "")).zip
          (List.range' k (es.filter (fun e => pyTake e.body 800 ≠ "")).length)).map
          (fun p => if p.1.id ≠ "" then "email_" ++ p.1.id
                    else "email_" ++ toString p.2) := by
  induction es with
  | nil => intro k; simp [keptRecs]
  | cons e rest ih =>
    intro k
    by_cases h : pyTake e.body 800 = "" <;>
      simp [keptRecs, List.filter_cons, h, ih, List.range'_succ]

/-- `upsertOne` preserves distinctness of the stored ids. -/
theorem upsertOne_keys_nodup (st : EmailStore) (r : KeptRec)
    (h : (st.map Prod.fst).Nodup) : ((upsertOne st r).map Prod.fst).Nodup := by
  unfold upsertOne
  by_cases hmem : st.any (fun p => p.1 = r.id)
  · rw [if_pos hmem]
    have hkeys : (st.map (fun p => if p.1 = r.id then (r.id, r.doc, r.meta) else p)).map
        Prod.fst = st.map Prod.fst := by
      rw [List.map_map]
      apply List.map_congr_left
      intro p _
      by_cases hp : p.1 = r.id <;> simp [hp]
    rw [hkeys]
    exact h
  · rw [if_neg hmem]
    have hmem' : ∀ p ∈ st, p.1 ≠ r.id := by
      intro p hp hpr
      exact hmem (List.any_eq_true.mpr ⟨p, hp, by simp [hpr]⟩)
    rw [List.map_append, List.nodup_append]
    refine ⟨h, by simp, ?_⟩
    intro x hx hx2
    have hxr : x = r.id := by simpa using hx2
    obtain ⟨p, hp, hpx⟩ := List.mem_map.mp hx
    exact hmem' p hp (hpx.trans hxr)

/-- `upsertBatch` preserves distinctness of the stored ids. -/
theorem upsertBatch_keys_nodup (rs : List KeptRec) : ∀ (st : EmailStore),
    (st.map Prod.fst).Nodup → ((upsertBatch st rs).map Prod.fst).Nodup := by
  induction rs with
  | nil => intro st h; exact h
  | cons r t ih =>
    intro st h
    exact ih (upsertOne st r) (upsertOne_keys_nodup st r h)

set_option maxRecDepth 8000 in
/-- C3 counterexample: a batch whose first kept record has an empty source
id and whose second has source id "0" is assigned the id "email_0" twice —
the ids assigned within a single batch are not pairwise distinct. -/
theorem ingest_ids_can_collide :
    (ingestLoop (exCollide.map Email.toDyn) []).map (List.map KeptRec.id)
        = .ok ["email_0", "email_0"]
    ∧ ¬ (["email_0", "email_0"] : List String).Nodup := by
  constructor
  · rfl
  · decide

/-- C3 (amended): each kept record is assigned the id `"email_" ++ source_id`
when the source id is non-empty and `"email_" ++ k` otherwise, with `k` the
index among kept records only; the assigned ids need not be pairwise
distinct within a batch, but upsert keying by id keeps the ids stored in the
collection distinct. -/
theorem ingest_id_assignment (emails : List Email) (st st' : EmailStore) (n : Nat)
    (hst : (st.map Prod.fst).Nodup)
    (hing : ingest st (emails.map Email.toDyn) = .ok (st', n)) :
    ((keptRecs (emails.take MAX_EMAIL_HISTORY) 0).map KeptRec.id
      = (((emails.take MAX_EMAIL_HISTORY).filter (fun e => pyTake e.body 800 ≠ "")).zip
          (List.range ((emails.take MAX_EMAIL_HISTORY).filter
            (fun e => pyTake e.body 800 ≠ "")).length)).map
          (fun p => if p.1.id ≠ "" then "email_" ++ p.1.id
                    else "email_" ++ toString p.2))
    ∧ (st'.map Prod.fst).Nodup := by
  constructor
  · rw [keptRecs_ids, List.range_eq_range']
  · rw [ingest_returns_kept_count st emails] at hing
    have hst' : st' = upsertBatch st (keptRecs (emails.take MAX_EMAIL_HISTORY) 0) := by
      have := Except.ok.inj hing
      exact (congrArg Prod.fst this).symm
    rw [hst']
    exact upsertBatch_keys_nodup _ st hst

set_option maxRecDepth 8000 in
/-- Witness for the amended C3 theorem at a concrete batch and store. -/
theorem ingest_id_assignment_witness :
    ((keptRecs (exCollide.take MAX_EMAIL_HISTORY) 0).map KeptRec.id
      = (((exCollide.take MAX_EMAIL_HISTORY).filter
            (fun e => pyTake e.body 800 ≠ "")).zip
          (List.range ((exCollide.take MAX_EMAIL_HISTORY).filter
            (fun e => pyTake e.body 800 ≠ "")).length)).map
          (fun p => if p.1.id ≠ "" then "email_" ++ p.1.id
                    else "email_" ++ toString p.2))
    ∧ (exCollideStore.map Prod.fst).Nodup :=
  ingest_id_assignment exCollide [] exCollideStore 2 (by decide) (by rfl)

/-- `processEmail` succeeds on a record whose body and received fields are
each absent or a string, keeping the record exactly when `keepsBody` says
so. -/
theorem processEmail_ok (e : EmailDyn) (k : Nat)
    (hb : strOrMissing e.body) (hr : strOrMissing e.received) :
    (keepsBody e = true → ∃ r, processEmail e k = .ok (some r))
    ∧ (keepsBody e = false → processEmail e k = .ok none) := by
  have hbs : ∃ s, (e.body).getD (.vstr "") = .vstr s := by
    rcases heb : e.body with _ | v
    · exact ⟨"", rfl⟩
    · rw [heb] at hb
      rcases v with s | n | _
      · exact ⟨s, rfl⟩
      · simp [strOrMissing] at hb
      · simp [strOrMissing] at hb
  have hrs : ∃ s, (e.received).getD (.vstr "") = .vstr s := by
    rcases her : e.received with _ | v
    · exact ⟨"", rfl⟩
    · rw [her] at hr
      rcases v with s | n | _
      · exact ⟨s, rfl⟩
      · simp [strOrMissing] at hr
      · simp [strOrMissing] at hr
  obtain ⟨s, hs⟩ := hbs
  obtain ⟨t, ht⟩ := hrs
  have hkb : keepsBody e = decide (pyTake s 800 ≠ "") := by
    unfold keepsBody
    rw [hs]
  constructor
  · intro hkeep
    rw [hkb] at hkeep
    simp only [decide_eq_true_eq] at hkeep
    unfold processEmail
    rw [hs, ht]
    simp only [pySlice]
    rw [if_neg hkeep]
    exact ⟨_, rfl⟩
  · intro hkeep
    rw [hkb] at hkeep
    simp only [decide_eq_false_iff_not, not_not] at hkeep
    unfold processEmail
    rw [hs, ht]
    simp [pySlice, hkeep]

/-- The ingestion loop succeeds on such records, and the number of kept
records equals the count of records passing the body filter. -/
theorem ingestLoop_ok (es : List EmailDyn) : ∀ (acc : List KeptRec),
    (∀ e ∈ es, strOrMissing e.body ∧ strOrMissing e.received) →
    ∃ l, ingestLoop es acc = .ok l
      ∧ l.length = acc.length + (es.filter keepsBody).length := by
  induction es with
  | nil => intro acc _; exact ⟨acc, rfl, by simp⟩
  | cons e rest ih =>
    intro acc h
    have he := h e (List.mem_cons_self e rest)
    have hrest : ∀ x ∈ rest, strOrMissing x.body ∧ strOrMissing x.received :=
      fun x hx => h x (List.mem_cons_of_mem e hx)
    by_cases hk : keepsBody e = true
    · obtain ⟨r, hr⟩ := ((processEmail_ok e acc.length he.1 he.2).1) hk
      obtain ⟨l, hl, hlen⟩ := ih (acc ++ [r]) hrest
      refine ⟨l, ?_, ?_⟩
      · rw [ingestLoop, hr]
        exact hl
      · rw [hlen]
        simp [List.filter_cons, hk]
        omega
    · have hr := ((processEmail_ok e acc.length he.1 he.2).2) (by simpa using hk)
      obtain ⟨l, hl, hlen⟩ := ih acc hrest
      refine ⟨l, ?_, ?_⟩
      · rw [ingestLoop, hr]
        exact hl
      · rw [hlen]
        simp [List.filter_cons, hk]

/-- C4 counterexample: a single record whose body is a non-string (here the
integer 5) makes `ingest` raise a `TypeError` rather than skip the record. -/
theorem ingest_raises_on_nonstring_body :
    ingest [] [{ body := some (.vint 5) }]
      = .error "TypeError: value is not subscriptable" := by
  rfl

/-- C4 (amended): records with missing fields — in particular a missing
body — never make `ingest` raise: they are skipped and only lower the
returned count.  This holds whenever every body/received field is absent or
a string; a non-string body or received value instead raises a `TypeError`
that propagates (alongside backend faults). -/
theorem ingest_skips_malformed_records (st : EmailStore) (emails : List EmailDyn)
    (h : ∀ e ∈ emails, strOrMissing e.body ∧ strOrMissing e.received) :
    ∃ st', ingest st emails
      = .ok (st', ((emails.take MAX_EMAIL_HISTORY).filter keepsBody).length) := by
  obtain ⟨l, hl, hlen⟩ := ingestLoop_ok (emails.take MAX_EMAIL_HISTORY) []
    (fun e he => h e (List.take_subset MAX_EMAIL_HISTORY emails he))
  simp only [List.length_nil, Nat.zero_add] at hlen
  have hin : ingest st emails
      = .ok ((if l.isEmpty then st else (chunksOf 100 l).foldl upsertBatch st),
             l.length) := by
    unfold ingest
    rw [hl]
  rw [hlen] at hin
  exact ⟨_, hin⟩

/-- Witness for the amended C4 theorem: a batch with one well-formed record,
one record with no body key and one empty record ingests without error and
reports one kept record. -/
theorem ingest_skips_malformed_records_witness :
    ∃ st', ingest [] exC4emails
      = .ok (st', ((exC4emails.take MAX_EMAIL_HISTORY).filter keepsBody).length) :=
  ingest_skips_malformed_records [] exC4emails (by decide)

/-! Lemmas and claims about retrieval. -/

/-- The per-match keep-and-shape step equals filtering by the distance
threshold and then shaping, preserving the ranked order. -/
theorem filterMap_threshold (l : List (MetaData × ℚ)) :
    l.filterMap (fun md => if md.2 < mkRat 4 5 then some (mkContext md.1 md.2) else none)
      = (l.filter (fun md => md.2 < mkRat 4 5)).map (fun md => mkContext md.1 md.2) := by
  induction l with
  | nil => simp
  | cons a t ih =>
    by_cases h : a.2 < mkRat 4 5 <;> simp [List.filter_cons, h, ih]

/-- C5: `retrieve` never propagates an error — on an empty store it returns
the empty sequence for every backend oracle (the backend is not consulted),
and whenever the backend query fails the error is caught and the empty
sequence is returned. -/
theorem retrieve_fail_safe (storeCount n : Nat)
    (qf : String → Nat → Except String QueryResult) (q : String)
    (h : storeCount = 0 ∨ ∃ msg, qf q (min n storeCount) = .error msg) :
    retrieve storeCount qf q n = [] := by
  unfold retrieve
  rcases h with h | ⟨msg, h⟩
  · rw [if_pos h]
  · by_cases h0 : storeCount = 0
    · rw [if_pos h0]
    · rw [if_neg h0, h]

/-- Witness for C5: the empty-store short-circuit and the caught backend
failure, each at concrete inputs with an always-failing backend. -/
theorem retrieve_fail_safe_witness :
    retrieve 0 exFailFn "query" 5 = [] ∧ retrieve 3 exFailFn "query" 5 = [] :=
  ⟨retrieve_fail_safe 0 5 exFailFn "query" (Or.inl rfl),
   retrieve_fail_safe 3 5 exFailFn "query" (Or.inr ⟨"backend down", rfl⟩)⟩

/-- C1: against a non-empty store, `retrieve` consults the backend for
exactly `min n_results storeCount` ranked matches, and returns exactly the
ranked matches with distance strictly below 0.8 (= 4/5), in the backend's
rank order with no re-sorting, each shaped into a context record whose
`similarity` is `1 - distance` rounded to 3 decimals. -/
theorem retrieve_filters_and_shapes (storeCount n : Nat)
    (qf : String → Nat → Except String QueryResult) (q : String)
    (res : QueryResult)
    (hne : storeCount ≠ 0)
    (hq : qf q (min n storeCount) = .ok res) :
    retrieve storeCount qf q n
      = ((res.metadatas.zip res.distances).filter
          (fun md => md.2 < mkRat 4 5)).map
          (fun md => { received := md.1.received, reply := md.1.reply,
                       subject := md.1.subject,
                       similarity := round3 (1 - md.2) }) := by
  unfold retrieve
  rw [if_neg hne, hq]
  exact filterMap_threshold (res.metadatas.zip res.distances)

/-- Witness for C1: a store of two records, one within the threshold and one
outside it; only the close match is returned, shaped with its rounded
similarity. -/
theorem retrieve_filters_and_shapes_witness :
    retrieve 2 exQueryFn "query" 5
      = [{ received := "r1", reply := "p1", subject := .vstr "s1",
           similarity := mkRat 9 10 }] := by
  have h := retrieve_filters_and_shapes 2 5 exQueryFn "query" exQueryRes
    (by decide) rfl
  rw [h]
  with_unfolding_all decide

/-! Lemmas and claims about the style profiler. -/

/-- Membership through `insertByCount`. -/
theorem mem_insertByCount (cnt : String → Nat) (a x : String) (l : List String) :
    x ∈ insertByCount cnt a l ↔ x = a ∨ x ∈ l := by
  induction l with
  | nil => simp [insertByCount]
  | cons b t ih =>
    by_cases h : cnt b < cnt a
    · simp [insertByCount, h]
    · simp [insertByCount, h, ih]
      tauto

/-- `insertByCount` preserves "the head has maximal count". -/
theorem insertByCount_head_max (cnt : String → Nat) (a : String) (l : List String)
    (hl : ∀ x ∈ l, ∀ h, l.head? = some h → cnt x ≤ cnt h) :
    ∀ x ∈ insertByCount cnt a l, ∀ h,
      (insertByCount cnt a l).head? = some h → cnt x ≤ cnt h := by
  cases l with
  | nil =>
    intro x hx h hh
    simp [insertByCount] at hx hh
    rw [hx, ← hh]
  | cons b t =>
    by_cases hc : cnt b < cnt a
    · intro x hx h hh
      simp only [insertByCount, if_pos hc] at hx hh
      rw [List.head?_cons, Option.some.injEq] at hh
      subst hh
      rcases List.mem_cons.mp hx with rfl | hx
      · exact Nat.le_refl _
      · rcases List.mem_cons.mp hx with rfl | hx
        · exact Nat.le_of_lt hc
        · exact Nat.le_trans (hl x (List.mem_cons_of_mem b hx) b rfl) (Nat.le_of_lt hc)
    · intro x hx h hh
      simp only [insertByCount, if_neg hc] at hx hh
      rw [List.head?_cons, Option.some.injEq] at hh
      subst hh
      rcases List.mem_cons.mp hx with rfl | hx
      · exact Nat.le_refl _
      · rcases (mem_insertByCount cnt a x t).mp hx with rfl | hx
        · exact Nat.le_of_not_lt hc
        · exact hl x (List.mem_cons_of_mem b hx) b rfl

/-- Membership through the fold of `sortByCountDesc`. -/
theorem foldl_insertByCount_mem (cnt : String → Nat) (keys : List String) :
    ∀ (acc : List String) (x : String),
      x ∈ keys.foldl (fun a k => insertByCount cnt k a) acc ↔ x ∈ acc ∨ x ∈ keys := by
  induction keys with
  | nil => intro acc x; simp
  | cons k t ih =>
    intro acc x
    rw [List.foldl_cons, ih (insertByCount cnt k acc) x, mem_insertByCount]
    simp
    tauto

/-- The head of the fold of `sortByCountDesc` has maximal count. -/
theorem foldl_insertByCount_head_max (cnt : String → Nat) (keys : List String) :
    ∀ (acc : List String),
      (∀ x ∈ acc, ∀ h, acc.head? = some h → cnt x ≤ cnt h) →
      ∀ x ∈ keys.foldl (fun a k => insertByCount cnt k a) acc, ∀ h,
        (keys.foldl (fun a k => insertByCount cnt k a) acc).head? = some h →
          cnt x ≤ cnt h := by
  induction keys with
  | nil => intro acc hacc; exact hacc
  | cons k t ih =>
    intro acc hacc
    rw [List.foldl_cons]
    exact ih (insertByCount cnt k acc) (insertByCount_head_max cnt k acc hacc)

/-- Membership in `sortByCountDesc` is membership in the keys. -/
theorem sortByCountDesc_mem (cnt : String → Nat) (keys : List String) (x : String) :
    x ∈ sortByCountDesc cnt keys ↔ x ∈ keys := by
  unfold sortByCountDesc
  rw [foldl_insertByCount_mem]
  simp

/-- The head of `sortByCountDesc` has maximal count among the keys. -/
theorem sortByCountDesc_head_max (cnt : String → Nat) (keys : List String)
    (h : String) (hh : (sortByCountDesc cnt keys).head? = some h) :
    ∀ x ∈ keys, cnt x ≤ cnt h := by
  intro x hx
  exact foldl_insertByCount_head_max cnt keys [] (by simp) x
    ((sortByCountDesc_mem cnt keys x).mpr hx) h hh

/-- `firstOccsAux` has the same members as the original list, for any
sufficient fuel. -/
theorem mem_firstOccsAux : ∀ (fuel : Nat) (l : List String), l.length ≤ fuel →
    ∀ x, x ∈ firstOccsAux fuel l ↔ x ∈ l := by
  intro fuel
  induction fuel with
  | zero =>
    intro l hl x
    have hnil : l = [] := List.eq_nil_of_length_eq_zero (Nat.le_zero.mp hl)
    subst hnil
    simp [firstOccsAux]
  | succ f ih =>
    intro l hl x
    cases l with
    | nil => simp [firstOccsAux]
    | cons a t =>
      rw [firstOccsAux, List.mem_cons, ih (t.filter (fun y => y ≠ a)) ?hlen x]
      case hlen =>
        have := List.length_filter_le (fun y => y ≠ a) t
        simp only [List.length_cons] at hl
        omega
      simp only [List.mem_filter, List.mem_cons]
      by_cases hxa : x = a <;> simp [hxa]

/-- `firstOccs` has the same members as the original list. -/
theorem mem_firstOccs (l : List String) (x : String) : x ∈ firstOccs l ↔ x ∈ l :=
  mem_firstOccsAux l.length l le_rfl x

/-- `firstOccs` of a non-empty list is non-empty. -/
theorem firstOccs_ne_nil (l : List String) (h : l ≠ []) : firstOccs l ≠ [] := by
  cases l with
  | nil => exact absurd rfl h
  | cons a t =>
    unfold firstOccs
    rw [List.length_cons, firstOccsAux]
    exact List.cons_ne_nil a _

/-- A successful `buildStyleProfile` forces a non-empty body list and fully
determines the profile's fields. -/
theorem buildStyleProfile_eq (emails : List Email) (p : StyleProfile)
    (h : buildStyleProfile emails = some p) :
    bodiesOf emails ≠ [] ∧
    p = { tone := toneOf (bodiesOf emails),
          avg_length := avgLengthOf (bodiesOf emails),
          sign_off := signOffOf (bodiesOf emails),
          common_phrases := commonPhrasesOf (bodiesOf emails),
          email_count := emails.length } := by
  unfold buildStyleProfile at h
  by_cases hb : bodiesOf emails = []
  · rw [if_pos hb] at h
    exact absurd h (by simp)
  · rw [if_neg hb] at h
    exact ⟨hb, (Option.some.injEq _ _).mp h |>.symm⟩

/-- With no tallied sign-off, `signOffOf` defaults to "Best regards". -/
theorem signOffOf_default (bodies : List String)
    (h : signOffTallies bodies = []) : signOffOf bodies = "Best regards" := by
  unfold signOffOf
  rw [h]
  rfl

/-- With at least one tallied sign-off, `signOffOf` is a tallied phrase of
maximal tally count. -/
theorem signOffOf_most_frequent (bodies : List String)
    (h : signOffTallies bodies ≠ []) :
    signOffOf bodies ∈ signOffTallies bodies
    ∧ ∀ t ∈ signOffTallies bodies,
        countOcc (signOffTallies bodies) t
          ≤ countOcc (signOffTallies bodies) (signOffOf bodies) := by
  have h1 : firstOccs (signOffTallies bodies) ≠ [] := firstOccs_ne_nil _ h
  set cnt := countOcc (signOffTallies bodies) with hcnt
  have h2 : sortByCountDesc cnt (firstOccs (signOffTallies bodies)) ≠ [] := by
    intro hc
    obtain ⟨a, t, hat⟩ := List.exists_cons_of_ne_nil h1
    have : a ∈ sortByCountDesc cnt (firstOccs (signOffTallies bodies)) :=
      (sortByCountDesc_mem cnt _ a).mpr (by rw [hat]; exact List.mem_cons_self a t)
    rw [hc] at this
    exact absurd this (List.not_mem_nil a)
  obtain ⟨hd, tl, hht⟩ := List.exists_cons_of_ne_nil h2
  have hsign : signOffOf bodies = hd := by
    unfold signOffOf mostCommon
    rw [hht]
    rfl
  rw [hsign]
  constructor
  · have : hd ∈ sortByCountDesc cnt (firstOccs (signOffTallies bodies)) := by
      rw [hht]; exact List.mem_cons_self hd tl
    exact (mem_firstOccs _ hd).mp ((sortByCountDesc_mem cnt _ hd).mp this)
  · intro t ht
    exact sortByCountDesc_head_max cnt _ hd (by rw [hht]; rfl) t
      ((mem_firstOccs _ t).mpr ht)

/-- C6: the tone is "formal" exactly when the formal-word hit count (one per
body and formal word contained case-insensitively as a substring) strictly
exceeds the casual-word hit count, and "conversational" otherwise — in
particular on ties. -/
theorem tone_detection (emails : List Email) (p : StyleProfile)
    (h : buildStyleProfile emails = some p) :
    (countHits casualWordList (bodiesOf emails)
        < countHits formalWordList (bodiesOf emails) → p.tone = "formal")
    ∧ (countHits formalWordList (bodiesOf emails)
        ≤ countHits casualWordList (bodiesOf emails) → p.tone = "conversational") := by
  obtain ⟨-, hp⟩ := buildStyleProfile_eq emails p h
  subst hp
  constructor
  · intro hc
    simp only [toneOf, gt_iff_lt, if_pos hc]
  · intro hc
    simp only [toneOf, gt_iff_lt, if_neg (Nat.not_lt.mpr hc)]

set_option maxRecDepth 40000 in
/-- Witness for C6: every body contains "please" and no casual word, so the
tone is "formal". -/
theorem tone_detection_witness :
    countHits casualWordList (bodiesOf exC6emails)
      < countHits formalWordList (bodiesOf exC6emails)
    ∧ exC6profile.tone = "formal" :=
  ⟨by decide,
   (tone_detection exC6emails exC6profile (by with_unfolding_all decide)).1
     (by decide)⟩

/-- C7: the sign-off is the captured phrase of the first case-insensitive
match of the fixed alternation, tallied once per matching body: when no body
matches, it defaults to "Best regards"; otherwise it is a tallied phrase of
maximal tally count. -/
theorem sign_off_detection (emails : List Email) (p : StyleProfile)
    (h : buildStyleProfile emails = some p) :
    (signOffTallies (bodiesOf emails) = [] → p.sign_off = "Best regards")
    ∧ (signOffTallies (bodiesOf emails) ≠ [] →
        p.sign_off ∈ signOffTallies (bodiesOf emails)
        ∧ ∀ t ∈ signOffTallies (bodiesOf emails),
            countOcc (signOffTallies (bodiesOf emails)) t
              ≤ countOcc (signOffTallies (bodiesOf emails)) p.sign_off) := by
  obtain ⟨-, hp⟩ := buildStyleProfile_eq emails p h
  subst hp
  constructor
  · intro hempty
    exact signOffOf_default (bodiesOf emails) hempty
  · intro hne
    exact signOffOf_most_frequent (bodiesOf emails) hne

set_option maxRecDepth 40000 in
/-- Witness for C7: five bodies signed "Best regards," and one signed
"Thanks," produce the sign-off "Best regards", which is among the tallied
phrases. -/
theorem sign_off_detection_witness :
    exC7profile.sign_off ∈ signOffTallies (bodiesOf exC7emails)
    ∧ exC7profile.sign_off = "Best regards" :=
  ⟨((sign_off_detection exC7emails exC7profile
      (by with_unfolding_all decide)).2 (by decide)).1,
   rfl⟩

/-- C8: after a build over a batch with at least one non-empty body, reading
the persisted profile back (with no intervening write) returns exactly the
profile the build call returned. -/
theorem profile_round_trip (disk : Option StyleProfile) (emails : List Email)
    (h : bodiesOf emails ≠ []) :
    get_style_profile (build_style_profile disk emails).2
      = (build_style_profile disk emails).1 := by
  unfold build_style_profile get_style_profile buildStyleProfile
  rw [if_neg h]

set_option maxRecDepth 40000 in
/-- Witness for C8 at a one-record batch and an empty disk slot. -/
theorem profile_round_trip_witness :
    get_style_profile (build_style_profile none exC8emails).2
      = (build_style_profile none exC8emails).1 :=
  profile_round_trip none exC8emails (by decide)

/-- C10: the `email_count` field of a successfully built profile is the raw
input batch length — counting records with empty bodies and records beyond
the 500-record ingestion cap. -/
theorem email_count_raw_length (emails : List Email) (p : StyleProfile)
    (h : buildStyleProfile emails = some p) :
    p.email_count = emails.length := by
  obtain ⟨-, hp⟩ := buildStyleProfile_eq emails p h
  rw [hp]

set_option maxRecDepth 40000 in
/-- Witness for C10: a batch of three records, one with an empty body, has
`email_count` 3 although only 2 bodies are analyzed. -/
theorem email_count_raw_length_witness :
    exC10profile.email_count = exC10emails.length
    ∧ exC10emails.length = 3 ∧ (bodiesOf exC10emails).length = 2 :=
  ⟨email_count_raw_length exC10emails exC10profile (by with_unfolding_all decide),
   by decide, by decide⟩
